import Mathlib

/-!
Shallow embedding of the split-payment contract (`src/contracts/hello-world/src/lib.rs`).

Participant addresses and symbols are modelled as natural numbers; `i128`
amounts as `Int` (the contract's arithmetic stays far from the 128-bit range
in every claim considered, and all divisions are by the constant 10000).
Rust's `/` on `i128` truncates toward zero, so it is modelled by `Int.tdiv`.
Storage is modelled as explicit state (`Store`): the counter at key 0, the
`Group` records keyed by group id, the per-member reverse index and the
per-group expense log.  Each contract entry point becomes a function
`... → Store → Except Err α × Store` that performs the source's checks in
source order and returns the store as of the abort point on failure; the
contract's `panic!` calls are mapped to the named error conditions.
-/

namespace SplitPayment

abbrev Addr := Nat

abbrev Sym := Nat

structure SplitInfo where
  member : Addr
  share : Int
deriving DecidableEq

structure Group where
  members : List Addr
  total_amount : Int
  member_shares : Addr → Int

structure Expense where
  payer : Addr
  amount : Int
  description : Sym
  split_info : List SplitInfo
  timestamp : Nat
deriving DecidableEq

inductive Err where
  | EmptyMembers
  | GroupNotFound
  | DuplicateMember
  | NotAMember
  | NonZeroBalance
  | InvalidAmount
  | SplitMismatch
  | ExpenseIndexOutOfRange
  | NotOriginalPayer
  | NoDebt
  | OverSettlement
deriving DecidableEq

structure Store where
  counter : Nat
  groups : Nat → Option Group
  memberGroups : Addr → List Nat
  expenses : Nat → List Expense

/-- Pointwise update of a keyed store component. -/
def upd {α : Type} (f : Nat → α) (k : Nat) (v : α) : Nat → α :=
  fun n => if n = k then v else f n

/-- The fresh store: no counter initialised (reads default to 0), no groups,
no reverse index entries, no expense logs. -/
def Store.init : Store :=
  { counter := 0, groups := fun _ => none, memberGroups := fun _ => [], expenses := fun _ => [] }

/-- One step of the member-loop of `create_group`: append the new group id to
one member's reverse index (lib.rs lines 68-78). -/
def pushMemberGroup (group_id : Nat) (s : Store) (m : Addr) : Store :=
  { s with memberGroups := upd s.memberGroups m (s.memberGroups m ++ [group_id]) }

/-- `create_group` (lib.rs lines 42-81). -/
def create_group (members : List Addr) (σ : Store) : Except Err Nat × Store :=
  if members.length = 0 then
    (.error .EmptyMembers, σ)
  else
    let group_id := σ.counter + 1
    let group : Group := { members := members, total_amount := 0, member_shares := fun _ => 0 }
    let σ₁ : Store := { σ with counter := group_id, groups := upd σ.groups group_id (some group) }
    (.ok group_id, members.foldl (pushMemberGroup group_id) σ₁)

/-- `add_member` (lib.rs lines 83-107). -/
def add_member (group_id : Nat) (new_member : Addr) (σ : Store) : Except Err Unit × Store :=
  match σ.groups group_id with
  | none => (.error .GroupNotFound, σ)
  | some group =>
    if new_member ∈ group.members then
      (.error .DuplicateMember, σ)
    else
      let group' := { group with members := group.members ++ [new_member] }
      let σ₁ : Store := { σ with groups := upd σ.groups group_id (some group') }
      (.ok (), { σ₁ with
        memberGroups := upd σ₁.memberGroups new_member (σ₁.memberGroups new_member ++ [group_id]) })

/-- `remove_member` (lib.rs lines 109-141); removal is of the first occurrence,
as `first_index_of` + `remove` in the source. -/
def remove_member (group_id : Nat) (member : Addr) (σ : Store) : Except Err Unit × Store :=
  match σ.groups group_id with
  | none => (.error .GroupNotFound, σ)
  | some group =>
    if member ∉ group.members then
      (.error .NotAMember, σ)
    else if group.member_shares member ≠ 0 then
      (.error .NonZeroBalance, σ)
    else
      let group' := { group with members := group.members.erase member }
      let σ₁ : Store := { σ with groups := upd σ.groups group_id (some group') }
      (.ok (), { σ₁ with
        memberGroups := upd σ₁.memberGroups member ((σ₁.memberGroups member).erase group_id) })

/-- `get_group_members` (lib.rs lines 143-146). -/
def get_group_members (group_id : Nat) (σ : Store) : Except Err (List Addr) × Store :=
  match σ.groups group_id with
  | none => (.error .GroupNotFound, σ)
  | some group => (.ok group.members, σ)

/-- `(amount * split.share) / 10000` with Rust's truncating `i128` division
(lib.rs lines 205 and 253). -/
def shareOf (amount : Int) (s : SplitInfo) : Int :=
  Int.tdiv (amount * s.share) 10000

/-- The member-shares update loop of `add_expense` (lib.rs lines 202-216). -/
def applySplits (payer : Addr) (amount : Int) (splits : List SplitInfo)
    (shares : Addr → Int) : Addr → Int :=
  splits.foldl (fun ms s =>
    if s.member = payer then
      upd ms s.member (ms s.member + amount - shareOf amount s)
    else
      upd ms s.member (ms s.member - shareOf amount s)) shares

/-- The inverse member-shares loop of `remove_expense` (lib.rs lines 250-268). -/
def applySplitsInv (payer : Addr) (amount : Int) (splits : List SplitInfo)
    (shares : Addr → Int) : Addr → Int :=
  splits.foldl (fun ms s =>
    if s.member = payer then
      upd ms s.member (ms s.member - (amount - shareOf amount s))
    else
      upd ms s.member (ms s.member + shareOf amount s)) shares

/-- `add_expense` (lib.rs lines 148-223).  The ledger timestamp is passed in
as a parameter.  Note the returned value is `group_id` (lib.rs line 222). -/
def add_expense (group_id : Nat) (payer : Addr) (amount : Int) (description : Sym)
    (split_members : List SplitInfo) (timestamp : Nat) (σ : Store) :
    Except Err Nat × Store :=
  match σ.groups group_id with
  | none => (.error .GroupNotFound, σ)
  | some group =>
    if payer ∉ group.members then
      (.error .NotAMember, σ)
    else if amount ≤ 0 then
      (.error .InvalidAmount, σ)
    else if ¬ (∀ s ∈ split_members, s.member ∈ group.members) then
      (.error .NotAMember, σ)
    else if (split_members.map (fun s => s.share)).sum ≠ 10000 then
      (.error .SplitMismatch, σ)
    else
      let expense : Expense :=
        { payer := payer, amount := amount, description := description,
          split_info := split_members, timestamp := timestamp }
      let group' : Group := { group with
        member_shares := applySplits payer amount split_members group.member_shares,
        total_amount := group.total_amount + amount }
      (.ok group_id,
        { σ with
          expenses := upd σ.expenses group_id (σ.expenses group_id ++ [expense]),
          groups := upd σ.groups group_id (some group') })

/-- `remove_expense` (lib.rs lines 225-279). -/
def remove_expense (group_id : Nat) (expense_index : Nat) (authorized_by : Addr)
    (σ : Store) : Except Err Unit × Store :=
  match σ.groups group_id with
  | none => (.error .GroupNotFound, σ)
  | some group =>
    let expenses := σ.expenses group_id
    if h : expenses.length ≤ expense_index then
      (.error .ExpenseIndexOutOfRange, σ)
    else
      let expense := expenses.get ⟨expense_index, Nat.not_le.mp h⟩
      if expense.payer ≠ authorized_by then
        (.error .NotOriginalPayer, σ)
      else
        let group' : Group := { group with
          member_shares :=
            applySplitsInv expense.payer expense.amount expense.split_info group.member_shares,
          total_amount := group.total_amount - expense.amount }
        (.ok (),
          { σ with
            groups := upd σ.groups group_id (some group'),
            expenses := upd σ.expenses group_id (expenses.eraseIdx expense_index) })

/-- `settle_debt` (lib.rs lines 281-316).  Both balances are read before
either write; the `from` write happens before the `to` write. -/
def settle_debt (group_id : Nat) (fromAddr toAddr : Addr) (amount : Int)
    (σ : Store) : Except Err Unit × Store :=
  match σ.groups group_id with
  | none => (.error .GroupNotFound, σ)
  | some group =>
    if fromAddr ∉ group.members then
      (.error .NotAMember, σ)
    else if toAddr ∉ group.members then
      (.error .NotAMember, σ)
    else if amount ≤ 0 then
      (.error .InvalidAmount, σ)
    else
      let from_share := group.member_shares fromAddr
      let to_share := group.member_shares toAddr
      if 0 ≤ from_share then
        (.error .NoDebt, σ)
      else if -from_share < amount then
        (.error .OverSettlement, σ)
      else
        let group' : Group := { group with
          member_shares :=
            upd (upd group.member_shares fromAddr (from_share + amount)) toAddr
              (to_share - amount) }
        (.ok (), { σ with groups := upd σ.groups group_id (some group') })

/-- `get_member_balance` (lib.rs lines 319-325). -/
def get_member_balance (group_id : Nat) (member : Addr) (σ : Store) :
    Except Err Int × Store :=
  match σ.groups group_id with
  | none => (.error .GroupNotFound, σ)
  | some group =>
    if member ∉ group.members then
      (.error .NotAMember, σ)
    else
      (.ok (group.member_shares member), σ)

/-- `get_group_expenses` (lib.rs lines 328-333): a bare `unwrap_or(Vec::new)`
read of the expense log, with no existence check on the group. -/
def get_group_expenses (group_id : Nat) (σ : Store) :
    Except Err (List Expense) × Store :=
  (.ok (σ.expenses group_id), σ)

theorem upd_same {α : Type} (f : Nat → α) (k : Nat) (v : α) : upd f k v k = v := by
  simp [upd]

theorem upd_other {α : Type} (f : Nat → α) (k : Nat) (v : α) {n : Nat} (h : n ≠ k) :
    upd f k v n = f n := by
  simp [upd, h]

/-- The balance delta that one split entry causes, following the spec's
description of the update rule. -/
def entryDelta (payer : Addr) (amount : Int) (s : SplitInfo) : Int :=
  if s.member = payer then amount - shareOf amount s else -shareOf amount s

/-- The total balance delta a split list causes at one address, following the
spec: every entry naming the address contributes its delta. -/
def splitDelta (payer : Addr) (amount : Int) : List SplitInfo → Addr → Int
  | [], _ => 0
  | s :: rest, a =>
    (if s.member = a then entryDelta payer amount s else 0) + splitDelta payer amount rest a

theorem applySplits_cons (payer : Addr) (amount : Int) (s : SplitInfo)
    (rest : List SplitInfo) (f : Addr → Int) :
    applySplits payer amount (s :: rest) f =
      applySplits payer amount rest
        (if s.member = payer then
          upd f s.member (f s.member + amount - shareOf amount s)
        else
          upd f s.member (f s.member - shareOf amount s)) := rfl

theorem applySplitsInv_cons (payer : Addr) (amount : Int) (s : SplitInfo)
    (rest : List SplitInfo) (f : Addr → Int) :
    applySplitsInv payer amount (s :: rest) f =
      applySplitsInv payer amount rest
        (if s.member = payer then
          upd f s.member (f s.member - (amount - shareOf amount s))
        else
          upd f s.member (f s.member + shareOf amount s)) := rfl

theorem applySplits_apply (payer : Addr) (amount : Int) (splits : List SplitInfo)
    (f : Addr → Int) (a : Addr) :
    applySplits payer amount splits f a = f a + splitDelta payer amount splits a := by
  induction splits generalizing f with
  | nil => simp [applySplits, splitDelta]
  | cons s rest ih =>
    rw [applySplits_cons, ih]
    by_cases hp : s.member = payer
    · rw [if_pos hp]
      by_cases hm : s.member = a
      · subst hm
        rw [upd_same]
        simp only [splitDelta, entryDelta, if_pos hp, eq_self_iff_true, if_true]
        ring
      · rw [upd_other _ _ _ (Ne.symm hm)]
        simp [splitDelta, hm]
    · rw [if_neg hp]
      by_cases hm : s.member = a
      · subst hm
        rw [upd_same]
        simp only [splitDelta, entryDelta, if_neg hp, eq_self_iff_true, if_true]
        ring
      · rw [upd_other _ _ _ (Ne.symm hm)]
        simp [splitDelta, hm]

theorem applySplitsInv_apply (payer : Addr) (amount : Int) (splits : List SplitInfo)
    (f : Addr → Int) (a : Addr) :
    applySplitsInv payer amount splits f a = f a - splitDelta payer amount splits a := by
  induction splits generalizing f with
  | nil => simp [applySplitsInv, splitDelta]
  | cons s rest ih =>
    rw [applySplitsInv_cons, ih]
    by_cases hp : s.member = payer
    · rw [if_pos hp]
      by_cases hm : s.member = a
      · subst hm
        rw [upd_same]
        simp only [splitDelta, entryDelta, if_pos hp, eq_self_iff_true, if_true]
        ring
      · rw [upd_other _ _ _ (Ne.symm hm)]
        simp [splitDelta, hm]
    · rw [if_neg hp]
      by_cases hm : s.member = a
      · subst hm
        rw [upd_same]
        simp only [splitDelta, entryDelta, if_neg hp, eq_self_iff_true, if_true]
        ring
      · rw [upd_other _ _ _ (Ne.symm hm)]
        simp [splitDelta, hm]

theorem applySplitsInv_applySplits (payer : Addr) (amount : Int)
    (splits : List SplitInfo) (f : Addr → Int) (a : Addr) :
    applySplitsInv payer amount splits (applySplits payer amount splits f) a = f a := by
  rw [applySplitsInv_apply, applySplits_apply]
  ring

/-- Success elimination for `add_expense`: everything the success of the call
implies about its inputs, and the exact resulting store. -/
theorem add_expense_ok {group_id payer : Nat} {amount : Int} {d : Sym}
    {splits : List SplitInfo} {ts : Nat} {σ : Store} {r : Nat}
    (h : (add_expense group_id payer amount d splits ts σ).1 = .ok r) :
    ∃ g : Group, σ.groups group_id = some g
      ∧ payer ∈ g.members
      ∧ 0 < amount
      ∧ (∀ s ∈ splits, s.member ∈ g.members)
      ∧ (splits.map (fun s => s.share)).sum = 10000
      ∧ r = group_id
      ∧ (add_expense group_id payer amount d splits ts σ).2 =
          { σ with
            expenses := upd σ.expenses group_id
              (σ.expenses group_id ++ [⟨payer, amount, d, splits, ts⟩]),
            groups := upd σ.groups group_id (some
              { members := g.members,
                total_amount := g.total_amount + amount,
                member_shares := applySplits payer amount splits g.member_shares }) } := by
  cases hg : σ.groups group_id with
  | none => simp [add_expense, hg] at h
  | some g =>
    simp only [add_expense, hg] at h
    by_cases h1 : payer ∉ g.members
    · rw [if_pos h1] at h; simp at h
    rw [if_neg h1] at h
    by_cases h2 : amount ≤ 0
    · rw [if_pos h2] at h; simp at h
    rw [if_neg h2] at h
    by_cases h3 : ¬ (∀ s ∈ splits, s.member ∈ g.members)
    · rw [if_pos h3] at h; simp at h
    rw [if_neg h3] at h
    by_cases h4 : (splits.map (fun s => s.share)).sum ≠ 10000
    · rw [if_pos h4] at h; simp at h
    rw [if_neg h4] at h
    have hr : group_id = r := by simpa using h
    refine ⟨g, rfl, not_not.mp h1, lt_of_not_le h2, not_not.mp h3, not_not.mp h4,
      hr.symm, ?_⟩
    simp only [add_expense, hg, if_neg h1, if_neg h2, if_neg h3, if_neg h4]

/-- Success elimination for `settle_debt`. -/
theorem settle_debt_ok {group_id fromAddr toAddr : Nat} {amount : Int} {σ : Store}
    (h : (settle_debt group_id fromAddr toAddr amount σ).1 = .ok ()) :
    ∃ g : Group, σ.groups group_id = some g
      ∧ fromAddr ∈ g.members
      ∧ toAddr ∈ g.members
      ∧ 0 < amount
      ∧ g.member_shares fromAddr < 0
      ∧ amount ≤ -g.member_shares fromAddr
      ∧ (settle_debt group_id fromAddr toAddr amount σ).2 =
          { σ with groups := upd σ.groups group_id (some
              { members := g.members,
                total_amount := g.total_amount,
                member_shares :=
                  upd (upd g.member_shares fromAddr (g.member_shares fromAddr + amount))
                    toAddr (g.member_shares toAddr - amount) }) } := by
  cases hg : σ.groups group_id with
  | none => simp [settle_debt, hg] at h
  | some g =>
    simp only [settle_debt, hg] at h
    by_cases h1 : fromAddr ∉ g.members
    · rw [if_pos h1] at h; simp at h
    rw [if_neg h1] at h
    by_cases h2 : toAddr ∉ g.members
    · rw [if_pos h2] at h; simp at h
    rw [if_neg h2] at h
    by_cases h3 : amount ≤ 0
    · rw [if_pos h3] at h; simp at h
    rw [if_neg h3] at h
    by_cases h4 : 0 ≤ g.member_shares fromAddr
    · rw [if_pos h4] at h; simp at h
    rw [if_neg h4] at h
    by_cases h5 : -g.member_shares fromAddr < amount
    · rw [if_pos h5] at h; simp at h
    rw [if_neg h5] at h
    refine ⟨g, rfl, not_not.mp h1, not_not.mp h2, lt_of_not_le h3, lt_of_not_le h4,
      le_of_not_lt h5, ?_⟩
    simp only [settle_debt, hg, if_neg h1, if_neg h2, if_neg h3, if_neg h4, if_neg h5]

/-- Success elimination for `remove_expense`. -/
theorem remove_expense_ok {group_id expense_index authorized_by : Nat} {σ : Store}
    (h : (remove_expense group_id expense_index authorized_by σ).1 = .ok ()) :
    ∃ (g : Group) (hlt : expense_index < (σ.expenses group_id).length),
      σ.groups group_id = some g
      ∧ ((σ.expenses group_id).get ⟨expense_index, hlt⟩).payer = authorized_by
      ∧ (remove_expense group_id expense_index authorized_by σ).2 =
          { σ with
            groups := upd σ.groups group_id (some
              { members := g.members,
                total_amount := g.total_amount -
                  ((σ.expenses group_id).get ⟨expense_index, hlt⟩).amount,
                member_shares := applySplitsInv
                  ((σ.expenses group_id).get ⟨expense_index, hlt⟩).payer
                  ((σ.expenses group_id).get ⟨expense_index, hlt⟩).amount
                  ((σ.expenses group_id).get ⟨expense_index, hlt⟩).split_info
                  g.member_shares }),
            expenses := upd σ.expenses group_id
              ((σ.expenses group_id).eraseIdx expense_index) } := by
  cases hg : σ.groups group_id with
  | none => simp [remove_expense, hg] at h
  | some g =>
    simp only [remove_expense, hg] at h
    by_cases hle : (σ.expenses group_id).length ≤ expense_index
    · rw [dif_pos hle] at h; simp at h
    rw [dif_neg hle] at h
    by_cases hp : ((σ.expenses group_id).get ⟨expense_index, Nat.not_le.mp hle⟩).payer
        ≠ authorized_by
    · rw [if_pos hp] at h; simp at h
    rw [if_neg hp] at h
    refine ⟨g, Nat.not_le.mp hle, rfl, not_not.mp hp, ?_⟩
    simp only [remove_expense, hg, dif_neg hle, if_neg hp]

theorem create_group_err {members : List Addr} {σ : Store} {e : Err}
    (h : (create_group members σ).1 = .error e) : (create_group members σ).2 = σ := by
  by_cases hm : members.length = 0
  · simp [create_group, hm]
  · simp [create_group, hm] at h

theorem add_member_err {gid m : Nat} {σ : Store} {e : Err}
    (h : (add_member gid m σ).1 = .error e) : (add_member gid m σ).2 = σ := by
  cases hg : σ.groups gid with
  | none => simp [add_member, hg]
  | some g =>
    by_cases hm : m ∈ g.members
    · simp [add_member, hg, hm]
    · simp [add_member, hg, hm] at h

theorem remove_member_err {gid m : Nat} {σ : Store} {e : Err}
    (h : (remove_member gid m σ).1 = .error e) : (remove_member gid m σ).2 = σ := by
  cases hg : σ.groups gid with
  | none => simp [remove_member, hg]
  | some g =>
    by_cases h1 : m ∈ g.members
    · by_cases h2 : g.member_shares m ≠ 0
      · simp [remove_member, hg, h1, h2]
      · simp [remove_member, hg, h1, h2] at h
    · simp [remove_member, hg, h1]

theorem get_group_members_state (gid : Nat) (σ : Store) :
    (get_group_members gid σ).2 = σ := by
  cases hg : σ.groups gid <;> simp [get_group_members, hg]

theorem add_expense_err {gid payer : Nat} {amount : Int} {d : Sym}
    {splits : List SplitInfo} {ts : Nat} {σ : Store} {e : Err}
    (h : (add_expense gid payer amount d splits ts σ).1 = .error e) :
    (add_expense gid payer amount d splits ts σ).2 = σ := by
  cases hg : σ.groups gid with
  | none => simp [add_expense, hg]
  | some g =>
    by_cases h1 : payer ∉ g.members
    · simp [add_expense, hg, h1]
    by_cases h2 : amount ≤ 0
    · simp [add_expense, hg, h1, h2]
    by_cases h3 : ¬ (∀ s ∈ splits, s.member ∈ g.members)
    · simp [add_expense, hg, h1, h2, h3]
    by_cases h4 : (splits.map (fun s => s.share)).sum ≠ 10000
    · simp [add_expense, hg, h1, h2, h3, h4]
    · simp [add_expense, hg, h1, h2, h3, h4] at h

theorem remove_expense_err {gid idx auth : Nat} {σ : Store} {e : Err}
    (h : (remove_expense gid idx auth σ).1 = .error e) :
    (remove_expense gid idx auth σ).2 = σ := by
  cases hg : σ.groups gid with
  | none => simp [remove_expense, hg]
  | some g =>
    simp only [remove_expense, hg] at h ⊢
    by_cases hle : (σ.expenses gid).length ≤ idx
    · rw [dif_pos hle]
    rw [dif_neg hle] at h ⊢
    by_cases hp : ((σ.expenses gid).get ⟨idx, Nat.not_le.mp hle⟩).payer ≠ auth
    · rw [if_pos hp]
    · rw [if_neg hp] at h; simp at h

theorem settle_debt_err {gid fromAddr toAddr : Nat} {amount : Int} {σ : Store} {e : Err}
    (h : (settle_debt gid fromAddr toAddr amount σ).1 = .error e) :
    (settle_debt gid fromAddr toAddr amount σ).2 = σ := by
  cases hg : σ.groups gid with
  | none => simp [settle_debt, hg]
  | some g =>
    simp only [settle_debt, hg] at h ⊢
    by_cases h1 : fromAddr ∉ g.members
    · rw [if_pos h1]
    rw [if_neg h1] at h ⊢
    by_cases h2 : toAddr ∉ g.members
    · rw [if_pos h2]
    rw [if_neg h2] at h ⊢
    by_cases h3 : amount ≤ 0
    · rw [if_pos h3]
    rw [if_neg h3] at h ⊢
    by_cases h4 : 0 ≤ g.member_shares fromAddr
    · rw [if_pos h4]
    rw [if_neg h4] at h ⊢
    by_cases h5 : -g.member_shares fromAddr < amount
    · rw [if_pos h5]
    · rw [if_neg h5] at h; simp at h

theorem get_member_balance_state (gid m : Nat) (σ : Store) :
    (get_member_balance gid m σ).2 = σ := by
  cases hg : σ.groups gid with
  | none => simp [get_member_balance, hg]
  | some g => by_cases hm : m ∉ g.members <;> simp [get_member_balance, hg, hm]

theorem get_group_expenses_state (gid : Nat) (σ : Store) :
    (get_group_expenses gid σ).2 = σ := rfl

theorem pushFold_groups (gid : Nat) (l : List Addr) (s : Store) :
    (l.foldl (pushMemberGroup gid) s).groups = s.groups := by
  induction l generalizing s with
  | nil => rfl
  | cons a t ih => rw [List.foldl_cons, ih]; rfl

theorem pushFold_expenses (gid : Nat) (l : List Addr) (s : Store) :
    (l.foldl (pushMemberGroup gid) s).expenses = s.expenses := by
  induction l generalizing s with
  | nil => rfl
  | cons a t ih => rw [List.foldl_cons, ih]; rfl

theorem pushFold_counter (gid : Nat) (l : List Addr) (s : Store) :
    (l.foldl (pushMemberGroup gid) s).counter = s.counter := by
  induction l generalizing s with
  | nil => rfl
  | cons a t ih => rw [List.foldl_cons, ih]; rfl

/-- Either `create_group` fails and the store is untouched, or it succeeds
and the counter, group table and expense logs change exactly as described. -/
theorem create_group_shape (members : List Addr) (σ : Store) :
    (create_group members σ).2 = σ ∨
    ((create_group members σ).2.counter = σ.counter + 1
      ∧ (create_group members σ).2.groups =
          upd σ.groups (σ.counter + 1)
            (some { members := members, total_amount := 0, member_shares := fun _ => 0 })
      ∧ (create_group members σ).2.expenses = σ.expenses) := by
  by_cases hm : members.length = 0
  · left; simp [create_group, hm]
  · right
    simp only [create_group, if_neg hm]
    exact ⟨pushFold_counter _ _ _, by rw [pushFold_groups], by rw [pushFold_expenses]⟩

theorem add_member_shape (gid m : Nat) (σ : Store) :
    (add_member gid m σ).2 = σ ∨
    (∃ g, σ.groups gid = some g
      ∧ (add_member gid m σ).2.counter = σ.counter
      ∧ (add_member gid m σ).2.groups =
          upd σ.groups gid (some { g with members := g.members ++ [m] })
      ∧ (add_member gid m σ).2.expenses = σ.expenses) := by
  cases hg : σ.groups gid with
  | none => left; simp [add_member, hg]
  | some g =>
    by_cases hm : m ∈ g.members
    · left; simp [add_member, hg, hm]
    · right; exact ⟨g, rfl, by simp [add_member, hg, hm], by simp [add_member, hg, hm],
        by simp [add_member, hg, hm]⟩

theorem remove_member_shape (gid m : Nat) (σ : Store) :
    (remove_member gid m σ).2 = σ ∨
    (∃ g, σ.groups gid = some g
      ∧ (remove_member gid m σ).2.counter = σ.counter
      ∧ (remove_member gid m σ).2.groups =
          upd σ.groups gid (some { g with members := g.members.erase m })
      ∧ (remove_member gid m σ).2.expenses = σ.expenses) := by
  cases hg : σ.groups gid with
  | none => left; simp [remove_member, hg]
  | some g =>
    by_cases h1 : m ∈ g.members
    · by_cases h2 : g.member_shares m ≠ 0
      · left; simp [remove_member, hg, h1, h2]
      · right; exact ⟨g, rfl, by simp [remove_member, hg, h1, h2],
          by simp [remove_member, hg, h1, h2], by simp [remove_member, hg, h1, h2]⟩
    · left; simp [remove_member, hg, h1]

theorem sum_map_eraseIdx {α : Type} (f : α → Int) (l : List α) (i : Nat)
    (h : i < l.length) :
    ((l.eraseIdx i).map f).sum = (l.map f).sum - f (l.get ⟨i, h⟩) := by
  induction l generalizing i with
  | nil => simp at h
  | cons a t ih =>
    cases i with
    | zero => simp [List.eraseIdx]
    | succ n =>
      simp only [List.eraseIdx, List.map_cons, List.sum_cons, List.get_cons_succ]
      rw [ih n (by simpa using h)]
      ring

/-- All states reachable from the fresh store by sequences of public
operations, with arbitrary arguments (failing calls leave the store as is). -/
inductive Reachable : Store → Prop where
  | init : Reachable Store.init
  | step_create (members : List Addr) {σ : Store} :
      Reachable σ → Reachable (create_group members σ).2
  | step_add_member (gid m : Nat) {σ : Store} :
      Reachable σ → Reachable (add_member gid m σ).2
  | step_remove_member (gid m : Nat) {σ : Store} :
      Reachable σ → Reachable (remove_member gid m σ).2
  | step_get_members (gid : Nat) {σ : Store} :
      Reachable σ → Reachable (get_group_members gid σ).2
  | step_add_expense (gid payer : Nat) (amount : Int) (d : Sym)
      (splits : List SplitInfo) (ts : Nat) {σ : Store} :
      Reachable σ → Reachable (add_expense gid payer amount d splits ts σ).2
  | step_remove_expense (gid idx auth : Nat) {σ : Store} :
      Reachable σ → Reachable (remove_expense gid idx auth σ).2
  | step_settle (gid fromAddr toAddr : Nat) (amount : Int) {σ : Store} :
      Reachable σ → Reachable (settle_debt gid fromAddr toAddr amount σ).2
  | step_get_balance (gid m : Nat) {σ : Store} :
      Reachable σ → Reachable (get_member_balance gid m σ).2
  | step_get_expenses (gid : Nat) {σ : Store} :
      Reachable σ → Reachable (get_group_expenses gid σ).2

/-- The storage invariant: group ids above the counter are unissued, unissued
ids have empty expense logs, and every group totals its expense log. -/
def Inv (σ : Store) : Prop :=
  (∀ gid, σ.counter < gid → σ.groups gid = none)
  ∧ (∀ gid, σ.groups gid = none → σ.expenses gid = [])
  ∧ (∀ gid g, σ.groups gid = some g →
      g.total_amount = ((σ.expenses gid).map Expense.amount).sum)

theorem inv_init : Inv Store.init :=
  ⟨fun _ _ => rfl, fun _ _ => rfl, fun _ g h => by simp [Store.init] at h⟩

theorem inv_bound {σ : Store} (hI : Inv σ) {gid : Nat} {g : Group}
    (hg : σ.groups gid = some g) : gid ≤ σ.counter := by
  by_contra hlt
  rw [hI.1 gid (by omega)] at hg
  cases hg

theorem inv_create (members : List Addr) {σ : Store} (hI : Inv σ) :
    Inv (create_group members σ).2 := by
  rcases create_group_shape members σ with hs | ⟨hc, hgrp, hexp⟩
  · rw [hs]; exact hI
  obtain ⟨hFresh, hOrphan, hTotal⟩ := hI
  refine ⟨?_, ?_, ?_⟩
  · intro gid hgt
    rw [hc] at hgt
    rw [hgrp, upd_other _ _ _ (by omega)]
    exact hFresh gid (by omega)
  · intro gid hnone
    rw [hexp]
    rw [hgrp] at hnone
    by_cases hEq : gid = σ.counter + 1
    · rw [hEq, upd_same] at hnone; cases hnone
    · rw [upd_other _ _ _ hEq] at hnone
      exact hOrphan gid hnone
  · intro gid g hsome
    rw [hexp]
    rw [hgrp] at hsome
    by_cases hEq : gid = σ.counter + 1
    · subst hEq
      rw [upd_same] at hsome
      have hnone : σ.groups (σ.counter + 1) = none := hFresh _ (by omega)
      have he : σ.expenses (σ.counter + 1) = [] := hOrphan _ hnone
      cases hsome
      rw [he]
      rfl
    · rw [upd_other _ _ _ hEq] at hsome
      exact hTotal gid g hsome

theorem inv_add_member (gid m : Nat) {σ : Store} (hI : Inv σ) :
    Inv (add_member gid m σ).2 := by
  rcases add_member_shape gid m σ with hs | ⟨g, hg, hc, hgrp, hexp⟩
  · rw [hs]; exact hI
  have hle : gid ≤ σ.counter := inv_bound hI hg
  obtain ⟨hFresh, hOrphan, hTotal⟩ := hI
  refine ⟨?_, ?_, ?_⟩
  · intro x hgt
    rw [hc] at hgt
    rw [hgrp, upd_other _ _ _ (by omega)]
    exact hFresh x hgt
  · intro x hnone
    rw [hexp]
    rw [hgrp] at hnone
    by_cases hEq : x = gid
    · rw [hEq, upd_same] at hnone; cases hnone
    · rw [upd_other _ _ _ hEq] at hnone
      exact hOrphan x hnone
  · intro x gx hsome
    rw [hexp]
    rw [hgrp] at hsome
    by_cases hEq : x = gid
    · subst hEq
      rw [upd_same] at hsome
      cases hsome
      exact hTotal x g hg
    · rw [upd_other _ _ _ hEq] at hsome
      exact hTotal x gx hsome

theorem inv_remove_member (gid m : Nat) {σ : Store} (hI : Inv σ) :
    Inv (remove_member gid m σ).2 := by
  rcases remove_member_shape gid m σ with hs | ⟨g, hg, hc, hgrp, hexp⟩
  · rw [hs]; exact hI
  have hle : gid ≤ σ.counter := inv_bound hI hg
  obtain ⟨hFresh, hOrphan, hTotal⟩ := hI
  refine ⟨?_, ?_, ?_⟩
  · intro x hgt
    rw [hc] at hgt
    rw [hgrp, upd_other _ _ _ (by omega)]
    exact hFresh x hgt
  · intro x hnone
    rw [hexp]
    rw [hgrp] at hnone
    by_cases hEq : x = gid
    · rw [hEq, upd_same] at hnone; cases hnone
    · rw [upd_other _ _ _ hEq] at hnone
      exact hOrphan x hnone
  · intro x gx hsome
    rw [hexp]
    rw [hgrp] at hsome
    by_cases hEq : x = gid
    · subst hEq
      rw [upd_same] at hsome
      cases hsome
      exact hTotal x g hg
    · rw [upd_other _ _ _ hEq] at hsome
      exact hTotal x gx hsome

theorem inv_add_expense (gid payer : Nat) (amount : Int) (d : Sym)
    (splits : List SplitInfo) (ts : Nat) {σ : Store} (hI : Inv σ) :
    Inv (add_expense gid payer amount d splits ts σ).2 := by
  cases hres : (add_expense gid payer amount d splits ts σ).1 with
  | error e => rw [add_expense_err hres]; exact hI
  | ok r =>
    obtain ⟨g, hg, _, _, _, _, _, hσ⟩ := add_expense_ok hres
    have hle : gid ≤ σ.counter := inv_bound hI hg
    obtain ⟨hFresh, hOrphan, hTotal⟩ := hI
    rw [hσ]
    refine ⟨?_, ?_, ?_⟩
    · intro x hgt
      simp only at hgt ⊢
      rw [upd_other _ _ _ (by omega)]
      exact hFresh x hgt
    · intro x hnone
      simp only at hnone ⊢
      by_cases hEq : x = gid
      · rw [hEq, upd_same] at hnone; cases hnone
      · rw [upd_other _ _ _ hEq] at hnone
        rw [upd_other _ _ _ hEq]
        exact hOrphan x hnone
    · intro x gx hsome
      simp only at hsome ⊢
      by_cases hEq : x = gid
      · subst hEq
        rw [upd_same] at hsome
        cases hsome
        rw [upd_same, List.map_append, List.sum_append]
        simp [hTotal x g hg]
      · rw [upd_other _ _ _ hEq] at hsome
        rw [upd_other _ _ _ hEq]
        exact hTotal x gx hsome

theorem inv_remove_expense (gid idx auth : Nat) {σ : Store} (hI : Inv σ) :
    Inv (remove_expense gid idx auth σ).2 := by
  cases hres : (remove_expense gid idx auth σ).1 with
  | error e => rw [remove_expense_err hres]; exact hI
  | ok r =>
    obtain ⟨g, hlt, hg, _, hσ⟩ := remove_expense_ok hres
    have hle : gid ≤ σ.counter := inv_bound hI hg
    obtain ⟨hFresh, hOrphan, hTotal⟩ := hI
    rw [hσ]
    refine ⟨?_, ?_, ?_⟩
    · intro x hgt
      simp only at hgt ⊢
      rw [upd_other _ _ _ (by omega)]
      exact hFresh x hgt
    · intro x hnone
      simp only at hnone ⊢
      by_cases hEq : x = gid
      · rw [hEq, upd_same] at hnone; cases hnone
      · rw [upd_other _ _ _ hEq] at hnone
        rw [upd_other _ _ _ hEq]
        exact hOrphan x hnone
    · intro x gx hsome
      simp only at hsome ⊢
      by_cases hEq : x = gid
      · subst hEq
        rw [upd_same] at hsome
        cases hsome
        rw [upd_same, sum_map_eraseIdx Expense.amount _ _ hlt]
        rw [hTotal x g hg]
      · rw [upd_other _ _ _ hEq] at hsome
        rw [upd_other _ _ _ hEq]
        exact hTotal x gx hsome

theorem inv_settle (gid fromAddr toAddr : Nat) (amount : Int) {σ : Store}
    (hI : Inv σ) : Inv (settle_debt gid fromAddr toAddr amount σ).2 := by
  cases hres : (settle_debt gid fromAddr toAddr amount σ).1 with
  | error e => rw [settle_debt_err hres]; exact hI
  | ok r =>
    obtain ⟨g, hg, _, _, _, _, _, hσ⟩ := settle_debt_ok hres
    have hle : gid ≤ σ.counter := inv_bound hI hg
    obtain ⟨hFresh, hOrphan, hTotal⟩ := hI
    rw [hσ]
    refine ⟨?_, ?_, ?_⟩
    · intro x hgt
      simp only at hgt ⊢
      rw [upd_other _ _ _ (by omega)]
      exact hFresh x hgt
    · intro x hnone
      simp only at hnone ⊢
      by_cases hEq : x = gid
      · rw [hEq, upd_same] at hnone; cases hnone
      · rw [upd_other _ _ _ hEq] at hnone
        exact hOrphan x hnone
    · intro x gx hsome
      simp only at hsome ⊢
      by_cases hEq : x = gid
      · subst hEq
        rw [upd_same] at hsome
        cases hsome
        exact hTotal x g hg
      · rw [upd_other _ _ _ hEq] at hsome
        exact hTotal x gx hsome

theorem reachable_inv {σ : Store} (h : Reachable σ) : Inv σ := by
  induction h with
  | init => exact inv_init
  | step_create members _ ih => exact inv_create members ih
  | step_add_member gid m _ ih => exact inv_add_member gid m ih
  | step_remove_member gid m _ ih => exact inv_remove_member gid m ih
  | step_get_members gid _ ih => rw [get_group_members_state]; exact ih
  | step_add_expense gid payer amount d splits ts _ ih =>
      exact inv_add_expense gid payer amount d splits ts ih
  | step_remove_expense gid idx auth _ ih => exact inv_remove_expense gid idx auth ih
  | step_settle gid fromAddr toAddr amount _ ih =>
      exact inv_settle gid fromAddr toAddr amount ih
  | step_get_balance gid m _ ih => rw [get_member_balance_state]; exact ih
  | step_get_expenses gid _ ih => rw [get_group_expenses_state]; exact ih

theorem tmod_bounds (x : Int) :
    -9999 ≤ Int.tmod x 10000 ∧ Int.tmod x 10000 ≤ 9999 := by
  cases x with
  | ofNat m =>
    have h : Int.tmod (Int.ofNat m) 10000 = ((m % 10000 : Nat) : Int) := rfl
    rw [h]
    constructor <;> omega
  | negSucc m =>
    have h : Int.tmod (Int.negSucc m) 10000 = -(((m + 1) % 10000 : Nat) : Int) := rfl
    rw [h]
    constructor <;> omega

theorem sum_tmod_bounds (amount : Int) (l : List SplitInfo) :
    -(9999 * (l.length : Int)) ≤ (l.map (fun s => Int.tmod (amount * s.share) 10000)).sum
    ∧ (l.map (fun s => Int.tmod (amount * s.share) 10000)).sum ≤ 9999 * (l.length : Int) := by
  induction l with
  | nil => simp
  | cons s rest ih =>
    simp only [List.map_cons, List.sum_cons, List.length_cons]
    have h1 := tmod_bounds (amount * s.share)
    push_cast
    constructor <;> linarith [ih.1, ih.2, h1.1, h1.2]

/-- Summing the truncating per-entry shares: `10000 * ΣshareOf + Σtmod = amount * Σshare`. -/
theorem sum_shareOf_key (amount : Int) (l : List SplitInfo) :
    10000 * (l.map (shareOf amount)).sum
      + (l.map (fun s => Int.tmod (amount * s.share) 10000)).sum
      = amount * (l.map (fun s => s.share)).sum := by
  induction l with
  | nil => simp
  | cons s rest ih =>
    simp only [List.map_cons, List.sum_cons, shareOf]
    have hdm := Int.tdiv_add_tmod (amount * s.share) 10000
    rw [Int.mul_add]
    linarith [ih]

/-- When the shares total 10000 basis points, the truncated shares sum to the
amount up to a residual of at most one unit per split entry. -/
theorem amount_sub_sum_share_bound {amount : Int} {splits : List SplitInfo}
    (hsum : (splits.map (fun s => s.share)).sum = 10000) :
    |amount - (splits.map (shareOf amount)).sum| ≤ (splits.length : Int) := by
  have hk := sum_shareOf_key amount splits
  rw [hsum] at hk
  have hb := sum_tmod_bounds amount splits
  have hn : (0 : Int) ≤ (splits.length : Int) := Int.natCast_nonneg _
  rw [abs_le]
  constructor <;> linarith [hb.1, hb.2]

theorem sum_splitDelta {S : Finset Addr} (payer : Addr) (amount : Int)
    {splits : List SplitInfo} (hS : ∀ s ∈ splits, s.member ∈ S) :
    (∑ a ∈ S, splitDelta payer amount splits a)
      = (splits.map (entryDelta payer amount)).sum := by
  induction splits with
  | nil => simp [splitDelta]
  | cons s rest ih =>
    simp only [splitDelta, List.map_cons, List.sum_cons]
    rw [Finset.sum_add_distrib]
    rw [ih (fun t ht => hS t (List.mem_cons_of_mem _ ht))]
    congr 1
    rw [Finset.sum_ite_eq S s.member (fun _ => entryDelta payer amount s)]
    exact if_pos (hS s (List.mem_cons_self _ _))

theorem sum_entryDelta (payer : Addr) (amount : Int) (splits : List SplitInfo) :
    (splits.map (entryDelta payer amount)).sum
      = amount * ((splits.filter (fun s => s.member = payer)).length : Int)
        - (splits.map (shareOf amount)).sum := by
  induction splits with
  | nil => simp
  | cons s rest ih =>
    simp only [List.map_cons, List.sum_cons]
    by_cases hp : s.member = payer
    · rw [ih, List.filter_cons_of_pos (by simp [hp])]
      simp only [entryDelta, if_pos hp, List.length_cons]
      push_cast
      ring
    · rw [ih, List.filter_cons_of_neg (by simp [hp])]
      simp only [entryDelta, if_neg hp]
      ring

/-- Forward evaluation of `remove_expense` on a valid index, authorized by
the recorded payer. -/
theorem remove_expense_eval {gid idx auth : Nat} {σ : Store} {g : Group}
    (hg : σ.groups gid = some g) (hle : ¬ (σ.expenses gid).length ≤ idx)
    (hpayer : ((σ.expenses gid).get ⟨idx, Nat.not_le.mp hle⟩).payer = auth) :
    remove_expense gid idx auth σ = (.ok (),
      { σ with
        groups := upd σ.groups gid (some
          { members := g.members,
            total_amount := g.total_amount -
              ((σ.expenses gid).get ⟨idx, Nat.not_le.mp hle⟩).amount,
            member_shares := applySplitsInv
              ((σ.expenses gid).get ⟨idx, Nat.not_le.mp hle⟩).payer
              ((σ.expenses gid).get ⟨idx, Nat.not_le.mp hle⟩).amount
              ((σ.expenses gid).get ⟨idx, Nat.not_le.mp hle⟩).split_info
              g.member_shares }),
        expenses := upd σ.expenses gid ((σ.expenses gid).eraseIdx idx) }) := by
  simp only [remove_expense, hg, dif_neg hle, if_neg (not_ne_iff.mpr hpayer)]

/-- Forward evaluation of `settle_debt` when all checks pass. -/
theorem settle_debt_eval {gid fromAddr toAddr : Nat} {amount : Int} {σ : Store}
    {g : Group} (hg : σ.groups gid = some g) (hf : fromAddr ∈ g.members)
    (ht : toAddr ∈ g.members) (ha : 0 < amount)
    (hneg : g.member_shares fromAddr < 0)
    (hle : amount ≤ -g.member_shares fromAddr) :
    settle_debt gid fromAddr toAddr amount σ = (.ok (),
      { σ with
        groups := upd σ.groups gid (some
          { members := g.members,
            total_amount := g.total_amount,
            member_shares :=
              upd (upd g.member_shares fromAddr (g.member_shares fromAddr + amount))
                toAddr (g.member_shares toAddr - amount) }) }) := by
  simp only [settle_debt, hg, if_neg (not_not_intro hf), if_neg (not_not_intro ht),
    if_neg (not_le.mpr ha), if_neg (not_le.mpr hneg), if_neg (not_lt.mpr hle)]

theorem get_eq_of_getElem? {α : Type} {l : List α} {i : Nat} (h : i < l.length)
    {x : α} (hx : l[i]? = some x) : l.get ⟨i, h⟩ = x := by
  rw [List.getElem?_eq_getElem h] at hx
  simpa using Option.some.inj hx

theorem splitDelta_eq_zero {splits : List SplitInfo} {a : Addr} (payer : Addr)
    (amount : Int) (h : ∀ s ∈ splits, s.member ≠ a) :
    splitDelta payer amount splits a = 0 := by
  induction splits with
  | nil => rfl
  | cons s rest ih =>
    simp only [splitDelta, if_neg (h s (List.mem_cons_self _ _)), zero_add]
    exact ih (fun t ht => h t (List.mem_cons_of_mem _ ht))

/-- The store after `create_group [0]` on the fresh store: group 1 exists with
the single member 0, zero total and zero balances. -/
def initialOneMember : Store := (create_group [0] Store.init).2

/-- The `Group` record stored at id 1 in `initialOneMember`. -/
def groupA : Group := { members := [0], total_amount := 0, member_shares := fun _ => 0 }

/-- Claim C1, counterexample: on the one-member store, a successful
`add_expense` into group 1 returns 1, while the expense log length before the
append is 0 — the returned value is not the index of the appended expense. -/
theorem add_expense_return_counterexample :
    (add_expense 1 0 100 0 [⟨0, 10000⟩] 0 initialOneMember).1 = .ok 1
    ∧ (initialOneMember.expenses 1).length = 0
    ∧ (1 : Nat) ≠ 0 :=
  ⟨rfl, rfl, by decide⟩

/-- Claim C1 (amended): a successful `add_expense` returns the `group_id`
argument, not the expense index; the new expense is nevertheless appended at
index = log length before the append, so reading the log at that index (not
at the returned value) yields the just-added expense. -/
theorem add_expense_return_and_append {group_id payer : Nat} {amount : Int}
    {d : Sym} {splits : List SplitInfo} {ts : Nat} {σ : Store} {r : Nat}
    (h : (add_expense group_id payer amount d splits ts σ).1 = .ok r) :
    r = group_id
    ∧ (add_expense group_id payer amount d splits ts σ).2.expenses group_id
        = σ.expenses group_id ++ [⟨payer, amount, d, splits, ts⟩]
    ∧ ((add_expense group_id payer amount d splits ts σ).2.expenses group_id)[
        (σ.expenses group_id).length]? = some ⟨payer, amount, d, splits, ts⟩ := by
  obtain ⟨g, hg, _, _, _, _, hr, hσ⟩ := add_expense_ok h
  have hexp : (add_expense group_id payer amount d splits ts σ).2.expenses group_id
      = σ.expenses group_id ++ [⟨payer, amount, d, splits, ts⟩] := by
    rw [hσ]; exact upd_same _ _ _
  refine ⟨hr, hexp, ?_⟩
  rw [hexp, List.getElem?_append_right (le_refl _)]
  simp

/-- Witness for the amended claim C1 at a concrete input. -/
theorem add_expense_return_and_append_witness :
    (1 : Nat) = 1
    ∧ (add_expense 1 0 100 0 [⟨0, 10000⟩] 0 initialOneMember).2.expenses 1
        = initialOneMember.expenses 1 ++ [⟨0, 100, 0, [⟨0, 10000⟩], 0⟩]
    ∧ ((add_expense 1 0 100 0 [⟨0, 10000⟩] 0 initialOneMember).2.expenses 1)[
        (initialOneMember.expenses 1).length]? = some ⟨0, 100, 0, [⟨0, 10000⟩], 0⟩ :=
  add_expense_return_and_append rfl

/-- Claim C3: a successful `add_expense` changes every balance by exactly the
sum, in split-list order, of the per-entry deltas — `amount - member_share`
for entries naming the payer and `-member_share` otherwise, with
`member_share` the truncating `(amount * share) / 10000` — and changes no
other balance (an address named by no split entry keeps its balance). -/
theorem add_expense_balance_deltas {group_id payer : Nat} {amount : Int}
    {d : Sym} {splits : List SplitInfo} {ts : Nat} {σ : Store} {r : Nat}
    {g : Group} (hg : σ.groups group_id = some g)
    (h : (add_expense group_id payer amount d splits ts σ).1 = .ok r) :
    ∃ g₁ : Group,
      (add_expense group_id payer amount d splits ts σ).2.groups group_id = some g₁
      ∧ (∀ a : Addr, g₁.member_shares a
          = g.member_shares a + splitDelta payer amount splits a)
      ∧ (∀ a : Addr, (∀ s ∈ splits, s.member ≠ a) →
          g₁.member_shares a = g.member_shares a) := by
  obtain ⟨g0, hg0, _, _, _, _, _, hσ⟩ := add_expense_ok h
  rw [hg] at hg0
  obtain rfl : g = g0 := Option.some.inj hg0
  refine ⟨_, by rw [hσ]; exact upd_same _ _ _,
    fun a => applySplits_apply payer amount splits g.member_shares a,
    fun a ha => ?_⟩
  show applySplits payer amount splits g.member_shares a = g.member_shares a
  rw [applySplits_apply, splitDelta_eq_zero payer amount ha, add_zero]

/-- Witness for claim C3 at a concrete input. -/
theorem add_expense_balance_deltas_witness :
    ∃ g₁ : Group,
      (add_expense 1 0 100 0 [⟨0, 10000⟩] 0 initialOneMember).2.groups 1 = some g₁
      ∧ (∀ a : Addr, g₁.member_shares a
          = groupA.member_shares a + splitDelta 0 100 [⟨0, 10000⟩] a)
      ∧ (∀ a : Addr, (∀ s ∈ [(⟨0, 10000⟩ : SplitInfo)], s.member ≠ a) →
          g₁.member_shares a = groupA.member_shares a) :=
  add_expense_balance_deltas rfl rfl

/-- Claim C2: a successful `add_expense` followed immediately by
`remove_expense` of the same expense (at index = log length before the add,
authorized by the payer) succeeds and restores every member's balance and the
group's `total_amount` exactly. -/
theorem add_then_remove_roundtrip {group_id payer : Nat} {amount : Int}
    {d : Sym} {splits : List SplitInfo} {ts : Nat} {σ : Store} {r : Nat}
    {g : Group} (hg : σ.groups group_id = some g)
    (h : (add_expense group_id payer amount d splits ts σ).1 = .ok r) :
    ∃ g₂ : Group,
      (remove_expense group_id (σ.expenses group_id).length payer
        (add_expense group_id payer amount d splits ts σ).2).1 = .ok ()
      ∧ (remove_expense group_id (σ.expenses group_id).length payer
          (add_expense group_id payer amount d splits ts σ).2).2.groups group_id
          = some g₂
      ∧ (∀ a : Addr, g₂.member_shares a = g.member_shares a)
      ∧ g₂.total_amount = g.total_amount := by
  obtain ⟨g0, hg0, _, _, _, _, _, hσ⟩ := add_expense_ok h
  rw [hg] at hg0
  obtain rfl : g = g0 := Option.some.inj hg0
  have hg1 : (add_expense group_id payer amount d splits ts σ).2.groups group_id
      = some { members := g.members, total_amount := g.total_amount + amount,
               member_shares := applySplits payer amount splits g.member_shares } := by
    rw [hσ]; exact upd_same _ _ _
  have hexp1 : (add_expense group_id payer amount d splits ts σ).2.expenses group_id
      = σ.expenses group_id ++ [⟨payer, amount, d, splits, ts⟩] := by
    rw [hσ]; exact upd_same _ _ _
  have hle : ¬ ((add_expense group_id payer amount d splits ts σ).2.expenses
      group_id).length ≤ (σ.expenses group_id).length := by
    rw [hexp1]; simp
  have hget : ((add_expense group_id payer amount d splits ts σ).2.expenses
      group_id).get ⟨(σ.expenses group_id).length, Nat.not_le.mp hle⟩
      = ⟨payer, amount, d, splits, ts⟩ := by
    refine get_eq_of_getElem? _ ?_
    rw [hexp1, List.getElem?_append_right (le_refl _)]
    simp
  have heval := remove_expense_eval hg1 hle (by rw [hget])
  rw [hget] at heval
  refine ⟨_, by rw [heval], by rw [heval]; exact upd_same _ _ _, fun a => ?_, ?_⟩
  · exact applySplitsInv_applySplits payer amount splits g.member_shares a
  · show g.total_amount + amount - amount = g.total_amount
    ring

/-- Witness for claim C2 at a concrete input. -/
theorem add_then_remove_roundtrip_witness :
    ∃ g₂ : Group,
      (remove_expense 1 (initialOneMember.expenses 1).length 0
        (add_expense 1 0 100 0 [⟨0, 10000⟩] 0 initialOneMember).2).1 = .ok ()
      ∧ (remove_expense 1 (initialOneMember.expenses 1).length 0
          (add_expense 1 0 100 0 [⟨0, 10000⟩] 0 initialOneMember).2).2.groups 1
          = some g₂
      ∧ (∀ a : Addr, g₂.member_shares a = groupA.member_shares a)
      ∧ g₂.total_amount = groupA.total_amount :=
  add_then_remove_roundtrip rfl rfl

/-- A concrete store with one group (id 1) of members 0 and 1, where member 0
owes 10 and member 1 is owed 10. -/
def groupD : Group :=
  { members := [0, 1], total_amount := 0,
    member_shares := fun a => if a = 0 then -10 else if a = 1 then 10 else 0 }

def debtStore : Store :=
  { counter := 1, groups := upd (fun _ => none) 1 (some groupD),
    memberGroups := fun _ => [], expenses := fun _ => [] }

/-- Claim C5: for an existing group, members `from`, `to` and positive
`amount`, `settle_debt` succeeds exactly when from's balance is negative and
`amount` does not exceed the owed absolute value; with a non-negative balance
it fails with `NoDebt`, and with too large an `amount` it fails with
`OverSettlement`. -/
theorem settle_debt_requires_debt {group_id fromAddr toAddr : Nat} {amount : Int}
    {σ : Store} {g : Group} (hg : σ.groups group_id = some g)
    (hf : fromAddr ∈ g.members) (ht : toAddr ∈ g.members) (ha : 0 < amount) :
    ((settle_debt group_id fromAddr toAddr amount σ).1 = .ok ()
      ↔ g.member_shares fromAddr < 0 ∧ amount ≤ -g.member_shares fromAddr)
    ∧ (0 ≤ g.member_shares fromAddr →
        (settle_debt group_id fromAddr toAddr amount σ).1 = .error .NoDebt)
    ∧ (g.member_shares fromAddr < 0 → -g.member_shares fromAddr < amount →
        (settle_debt group_id fromAddr toAddr amount σ).1 = .error .OverSettlement) := by
  refine ⟨⟨fun hok => ?_, fun hc => ?_⟩, fun hnn => ?_, fun hneg hover => ?_⟩
  · obtain ⟨g0, hg0, _, _, _, hneg, hle, _⟩ := settle_debt_ok hok
    rw [hg] at hg0
    obtain rfl : g = g0 := Option.some.inj hg0
    exact ⟨hneg, hle⟩
  · rw [settle_debt_eval hg hf ht ha hc.1 hc.2]
  · simp only [settle_debt, hg, if_neg (not_not_intro hf), if_neg (not_not_intro ht),
      if_neg (not_le.mpr ha), if_pos hnn]
  · simp only [settle_debt, hg, if_neg (not_not_intro hf), if_neg (not_not_intro ht),
      if_neg (not_le.mpr ha), if_neg (not_le.mpr hneg), if_pos hover]

/-- Witness for claim C5 at a concrete input. -/
theorem settle_debt_requires_debt_witness :
    ((settle_debt 1 0 1 5 debtStore).1 = .ok ()
      ↔ groupD.member_shares 0 < 0 ∧ 5 ≤ -groupD.member_shares 0)
    ∧ (0 ≤ groupD.member_shares 0 →
        (settle_debt 1 0 1 5 debtStore).1 = .error .NoDebt)
    ∧ (groupD.member_shares 0 < 0 → -groupD.member_shares 0 < 5 →
        (settle_debt 1 0 1 5 debtStore).1 = .error .OverSettlement) :=
  settle_debt_requires_debt rfl (by decide) (by decide) (by decide)

/-- Claim C6, counterexample: `settle_debt` with `from = to` (member 0 of the
debt store, balance -10, amount 5) succeeds, but the member's final balance is
-15, not -10 + 5, and the from/to balance sum is not conserved. -/
theorem settle_conserves_counterexample :
    (settle_debt 1 0 0 5 debtStore).1 = .ok ()
    ∧ (∃ g' : Group, (settle_debt 1 0 0 5 debtStore).2.groups 1 = some g'
        ∧ g'.member_shares 0 = -15
        ∧ g'.member_shares 0 ≠ groupD.member_shares 0 + 5
        ∧ g'.member_shares 0 + g'.member_shares 0
            ≠ groupD.member_shares 0 + groupD.member_shares 0) :=
  ⟨rfl, _, rfl, rfl, by decide, by decide⟩

/-- Claim C6 (amended): for distinct members `from ≠ to`, a successful
`settle_debt` adds `amount` to from's balance, subtracts `amount` from to's,
leaves every other balance unchanged, and conserves the from+to balance sum. -/
theorem settle_debt_conserves_pair {group_id fromAddr toAddr : Nat} {amount : Int}
    {σ : Store} {g : Group} (hg : σ.groups group_id = some g)
    (hne : fromAddr ≠ toAddr)
    (hok : (settle_debt group_id fromAddr toAddr amount σ).1 = .ok ()) :
    ∃ g' : Group,
      (settle_debt group_id fromAddr toAddr amount σ).2.groups group_id = some g'
      ∧ g'.member_shares fromAddr = g.member_shares fromAddr + amount
      ∧ g'.member_shares toAddr = g.member_shares toAddr - amount
      ∧ (∀ a, a ≠ fromAddr → a ≠ toAddr → g'.member_shares a = g.member_shares a)
      ∧ g'.member_shares fromAddr + g'.member_shares toAddr
          = g.member_shares fromAddr + g.member_shares toAddr := by
  obtain ⟨g0, hg0, hf, ht, ha, hneg, hle, hσ⟩ := settle_debt_ok hok
  rw [hg] at hg0
  obtain rfl : g = g0 := Option.some.inj hg0
  have hfa : upd (upd g.member_shares fromAddr (g.member_shares fromAddr + amount))
      toAddr (g.member_shares toAddr - amount) fromAddr
      = g.member_shares fromAddr + amount := by
    rw [upd_other _ _ _ hne, upd_same]
  have hta : upd (upd g.member_shares fromAddr (g.member_shares fromAddr + amount))
      toAddr (g.member_shares toAddr - amount) toAddr
      = g.member_shares toAddr - amount := upd_same _ _ _
  refine ⟨_, by rw [hσ]; exact upd_same _ _ _, hfa, hta, fun a haf hat => ?_, ?_⟩
  · show upd (upd g.member_shares fromAddr (g.member_shares fromAddr + amount))
      toAddr (g.member_shares toAddr - amount) a = g.member_shares a
    rw [upd_other _ _ _ hat, upd_other _ _ _ haf]
  · show upd (upd g.member_shares fromAddr (g.member_shares fromAddr + amount))
        toAddr (g.member_shares toAddr - amount) fromAddr
      + upd (upd g.member_shares fromAddr (g.member_shares fromAddr + amount))
        toAddr (g.member_shares toAddr - amount) toAddr
      = g.member_shares fromAddr + g.member_shares toAddr
    rw [hfa, hta]
    ring

/-- Witness for the amended claim C6 at a concrete input. -/
theorem settle_debt_conserves_pair_witness :
    ∃ g' : Group, (settle_debt 1 0 1 5 debtStore).2.groups 1 = some g'
      ∧ g'.member_shares 0 = groupD.member_shares 0 + 5
      ∧ g'.member_shares 1 = groupD.member_shares 1 - 5
      ∧ (∀ a, a ≠ 0 → a ≠ 1 → g'.member_shares a = groupD.member_shares a)
      ∧ g'.member_shares 0 + g'.member_shares 1
          = groupD.member_shares 0 + groupD.member_shares 1 :=
  settle_debt_conserves_pair rfl (by decide) rfl

/-- Claim C10: self-settlement — `settle_debt` with `from = to = m`, for a
member with balance `b < 0` and `0 < amount ≤ -b`, succeeds and leaves m's
balance at `b - amount` (the debit overwrites the credit, both computed from
the balances read before either write); all other balances are unchanged and
the sum of balances over any address set containing m drops by `amount`. -/
theorem settle_debt_self {group_id m : Nat} {amount : Int} {σ : Store} {g : Group}
    (hg : σ.groups group_id = some g) (hm : m ∈ g.members)
    (hneg : g.member_shares m < 0) (ha : 0 < amount)
    (hle : amount ≤ -g.member_shares m) :
    (settle_debt group_id m m amount σ).1 = .ok ()
    ∧ ∃ g' : Group,
        (settle_debt group_id m m amount σ).2.groups group_id = some g'
        ∧ g'.member_shares m = g.member_shares m - amount
        ∧ (∀ a, a ≠ m → g'.member_shares a = g.member_shares a)
        ∧ ∀ S : Finset Addr, m ∈ S →
            (∑ a ∈ S, g'.member_shares a) = (∑ a ∈ S, g.member_shares a) - amount := by
  have heval := settle_debt_eval hg hm hm ha hneg hle
  have hpt : ∀ a, upd (upd g.member_shares m (g.member_shares m + amount)) m
      (g.member_shares m - amount) a
      = g.member_shares a + (if a = m then -amount else 0) := by
    intro a
    by_cases hm' : a = m
    · subst hm'
      rw [upd_same, if_pos rfl]
      ring
    · rw [upd_other _ _ _ hm', upd_other _ _ _ hm', if_neg hm', add_zero]
  refine ⟨by rw [heval], _, by rw [heval]; exact upd_same _ _ _, ?_, fun a ha' => ?_,
    fun S hS => ?_⟩
  · show upd (upd g.member_shares m (g.member_shares m + amount)) m
      (g.member_shares m - amount) m = g.member_shares m - amount
    exact upd_same _ _ _
  · show upd (upd g.member_shares m (g.member_shares m + amount)) m
      (g.member_shares m - amount) a = g.member_shares a
    rw [upd_other _ _ _ ha', upd_other _ _ _ ha']
  · show (∑ a ∈ S, upd (upd g.member_shares m (g.member_shares m + amount)) m
        (g.member_shares m - amount) a) = (∑ a ∈ S, g.member_shares a) - amount
    rw [Finset.sum_congr rfl (fun a _ => hpt a), Finset.sum_add_distrib,
      Finset.sum_ite_eq' S m (fun _ => -amount), if_pos hS]
    ring

/-- Witness for claim C10 at a concrete input. -/
theorem settle_debt_self_witness :
    (settle_debt 1 0 0 5 debtStore).1 = .ok ()
    ∧ ∃ g' : Group,
        (settle_debt 1 0 0 5 debtStore).2.groups 1 = some g'
        ∧ g'.member_shares 0 = groupD.member_shares 0 - 5
        ∧ (∀ a, a ≠ 0 → g'.member_shares a = groupD.member_shares a)
        ∧ ∀ S : Finset Addr, 0 ∈ S →
            (∑ a ∈ S, g'.member_shares a) = (∑ a ∈ S, groupD.member_shares a) - 5 :=
  settle_debt_self rfl (by decide) (by decide) (by decide) (by decide)

/-- Claim C7, counterexample: group id 5 was never issued in the fresh store,
yet `get_group_expenses` does not fail with `GroupNotFound` — it returns
`ok []`. -/
theorem get_group_expenses_counterexample :
    Store.init.groups 5 = none
    ∧ (get_group_expenses 5 Store.init).1 = .ok []
    ∧ (get_group_expenses 5 Store.init).1 ≠ .error .GroupNotFound :=
  ⟨rfl, rfl, by simp [get_group_expenses]⟩

/-- Claim C7 (amended): `get_group_expenses` never fails.  It returns the
stored ordered expense log (empty when no expenses are recorded), leaves the
store unchanged, and in any reachable state returns `ok []` — rather than
`GroupNotFound` — for a group id that was never issued. -/
theorem get_group_expenses_spec (gid : Nat) (σ : Store) :
    (get_group_expenses gid σ).1 = .ok (σ.expenses gid)
    ∧ (get_group_expenses gid σ).2 = σ
    ∧ (Reachable σ → σ.groups gid = none → (get_group_expenses gid σ).1 = .ok []) := by
  refine ⟨rfl, rfl, fun hR hnone => ?_⟩
  have hempty := (reachable_inv hR).2.1 gid hnone
  show Except.ok (σ.expenses gid) = .ok []
  rw [hempty]

/-- Witness for the amended claim C7 at a concrete input. -/
theorem get_group_expenses_spec_witness :
    (get_group_expenses 5 Store.init).1 = .ok [] :=
  (get_group_expenses_spec 5 Store.init).2.2 Reachable.init rfl

/-- Claim C8: every public operation, on every input on which it fails,
leaves the entire persisted store (counter, group records, member reverse
indexes, expense logs) exactly as it was before the call; the read-only
accessors never change it at all. -/
theorem failed_operations_leave_store_unchanged (σ : Store) :
    (∀ members e, (create_group members σ).1 = .error e →
        (create_group members σ).2 = σ)
    ∧ (∀ gid m e, (add_member gid m σ).1 = .error e → (add_member gid m σ).2 = σ)
    ∧ (∀ gid m e, (remove_member gid m σ).1 = .error e →
        (remove_member gid m σ).2 = σ)
    ∧ (∀ gid e, (get_group_members gid σ).1 = .error e →
        (get_group_members gid σ).2 = σ)
    ∧ (∀ gid payer amount d splits ts e,
        (add_expense gid payer amount d splits ts σ).1 = .error e →
        (add_expense gid payer amount d splits ts σ).2 = σ)
    ∧ (∀ gid idx auth e, (remove_expense gid idx auth σ).1 = .error e →
        (remove_expense gid idx auth σ).2 = σ)
    ∧ (∀ gid fromAddr toAddr amount e,
        (settle_debt gid fromAddr toAddr amount σ).1 = .error e →
        (settle_debt gid fromAddr toAddr amount σ).2 = σ)
    ∧ (∀ gid m e, (get_member_balance gid m σ).1 = .error e →
        (get_member_balance gid m σ).2 = σ)
    ∧ (∀ gid e, (get_group_expenses gid σ).1 = .error e →
        (get_group_expenses gid σ).2 = σ) :=
  ⟨fun _ _ => create_group_err,
   fun _ _ _ => add_member_err,
   fun _ _ _ => remove_member_err,
   fun gid _ _ => get_group_members_state gid σ,
   fun _ _ _ _ _ _ _ => add_expense_err,
   fun _ _ _ _ => remove_expense_err,
   fun _ _ _ _ _ => settle_debt_err,
   fun gid m _ _ => get_member_balance_state gid m σ,
   fun gid _ _ => get_group_expenses_state gid σ⟩

/-- Witness for claim C8 at a concrete failing input. -/
theorem failed_operations_leave_store_unchanged_witness :
    (create_group [] Store.init).2 = Store.init :=
  (failed_operations_leave_store_unchanged Store.init).1 [] Err.EmptyMembers rfl

/-- Claim C9, counterexample: an accepted split list that does not name the
payer (payer 0, split [(1, 10000)], amount 100) moves the members' balance sum
by 100, far more than the one-unit-per-entry residual the claim allows. -/
theorem expense_residual_counterexample :
    (add_expense 1 0 100 0 [⟨1, 10000⟩] 0 debtStore).1 = .ok 1
    ∧ (∃ g' : Group,
        (add_expense 1 0 100 0 [⟨1, 10000⟩] 0 debtStore).2.groups 1 = some g'
        ∧ g'.member_shares 0 + g'.member_shares 1 = -100
        ∧ groupD.member_shares 0 + groupD.member_shares 1 = 0
        ∧ ¬(|(-100 : Int) - 0| ≤ (([(⟨1, 10000⟩ : SplitInfo)].length : Nat) : Int))) :=
  ⟨rfl, _, rfl, by decide, by decide, by decide⟩

/-- Claim C9 (amended): for a successful `add_expense` whose split list names
the payer exactly once, the absolute change of the sum of the distinct
members' balances is at most the number of split entries. -/
theorem expense_residual_bound {group_id payer : Nat} {amount : Int} {d : Sym}
    {splits : List SplitInfo} {ts : Nat} {σ : Store} {r : Nat} {g : Group}
    (hg : σ.groups group_id = some g)
    (h : (add_expense group_id payer amount d splits ts σ).1 = .ok r)
    (honce : (splits.filter (fun s => s.member = payer)).length = 1) :
    ∃ g₁ : Group,
      (add_expense group_id payer amount d splits ts σ).2.groups group_id = some g₁
      ∧ |(∑ a ∈ g.members.toFinset, g₁.member_shares a)
          - ∑ a ∈ g.members.toFinset, g.member_shares a| ≤ (splits.length : Int) := by
  obtain ⟨g0, hg0, hpm, hpos, hsm, hsum, _, hσ⟩ := add_expense_ok h
  rw [hg] at hg0
  obtain rfl : g = g0 := Option.some.inj hg0
  refine ⟨_, by rw [hσ]; exact upd_same _ _ _, ?_⟩
  have hS : ∀ s ∈ splits, s.member ∈ g.members.toFinset :=
    fun s hs => List.mem_toFinset.mpr (hsm s hs)
  have h1 : (∑ a ∈ g.members.toFinset, applySplits payer amount splits g.member_shares a)
      = (∑ a ∈ g.members.toFinset, g.member_shares a)
        + ∑ a ∈ g.members.toFinset, splitDelta payer amount splits a := by
    rw [← Finset.sum_add_distrib]
    exact Finset.sum_congr rfl
      (fun a _ => applySplits_apply payer amount splits g.member_shares a)
  show |(∑ a ∈ g.members.toFinset, applySplits payer amount splits g.member_shares a)
      - ∑ a ∈ g.members.toFinset, g.member_shares a| ≤ (splits.length : Int)
  rw [h1, sum_splitDelta payer amount hS, sum_entryDelta, honce]
  have h2 : (∑ a ∈ g.members.toFinset, g.member_shares a)
      + (amount * ((1 : Nat) : Int) - (splits.map (shareOf amount)).sum)
      - ∑ a ∈ g.members.toFinset, g.member_shares a
      = amount - (splits.map (shareOf amount)).sum := by
    push_cast
    ring
  rw [h2]
  exact amount_sub_sum_share_bound hsum

/-- Witness for the amended claim C9 at a concrete input. -/
theorem expense_residual_bound_witness :
    ∃ g₁ : Group,
      (add_expense 1 0 100 0 [⟨0, 10000⟩] 0 initialOneMember).2.groups 1 = some g₁
      ∧ |(∑ a ∈ groupA.members.toFinset, g₁.member_shares a)
          - ∑ a ∈ groupA.members.toFinset, groupA.member_shares a|
          ≤ (([(⟨0, 10000⟩ : SplitInfo)].length : Nat) : Int) :=
  expense_residual_bound rfl rfl rfl

/-- Claim C4: in every state reachable from the fresh store by any sequence
of public operations, every existing group's `total_amount` equals the sum of
`amount` over the expenses currently in that group's log. -/
theorem total_amount_invariant {σ : Store} (hR : Reachable σ) :
    ∀ gid g, σ.groups gid = some g →
      g.total_amount = ((σ.expenses gid).map Expense.amount).sum :=
  (reachable_inv hR).2.2

/-- Witness for claim C4 at a concrete reachable state. -/
theorem total_amount_invariant_witness :
    groupA.total_amount = ((initialOneMember.expenses 1).map Expense.amount).sum :=
  total_amount_invariant (Reachable.step_create [0] Reachable.init) 1 groupA rfl

end SplitPayment
